import Mathlib

/-!
Shallow embedding of `src/main.py` (pattern-orchestra): a multi-track
generative MIDI sequencer.  Pure structure of the Python code is translated
definition-by-definition:

* `natural_sort_key` / the sorting of pattern filenames (main.py:18-20, 75-78);
* `Track` — one playback thread owning a channel on a port (main.py:22-58);
* `PatternOrchestra.__init__` — library load, port/track allocation
  (main.py:61-97), modelled as `orchestraInit`;
* the queueing / stochastic-advance operations (main.py:108-138).

Modelling conventions:
* Python lists become Lean `List`s; in-place index assignment becomes
  `List.set`; Python `IndexError` / `TypeError` are modelled by the
  `Except String` monad (`pyGetNat`, `pyGetInt`, `pySetNat` reproduce
  Python indexing, including negative-index wrap-around).
* Float durations and `random.random()` values become `ℚ`; the literal
  `.1` becomes `1/10` (the claims are about the comparison structure,
  not float rounding).
* `mido` messages are opaque records `Msg` carrying the fields the code
  touches: `time`, `is_meta`, `channel`, plus an opaque payload `kind`.
* The environment discovery `mido.get_output_names()` filtered by
  "loopMIDI" (main.py:84) is I/O; its result (the available port-name
  list) is a parameter of `orchestraInit`, and `os.listdir` + MIDI file
  parsing is a parameter `files : List (String × List Msg)`
  (filename ↦ parsed message list).
* Threads: `Track.run` is a loop consuming the track queue; with the
  queue contents fixed, its observable behaviour is the trace of
  port-sends, callback invocations and the final port reset
  (`trackRunTrace`).  `time.sleep` has no effect on the embedded state.
* Python `sorted` is a stable sort; a stable sort's output is uniquely
  determined by the comparator, so it is modelled by the (stable)
  `List.insertionSort` from Mathlib with the same key comparison.
-/

deriving instance DecidableEq for Except

/-- A MIDI message as the code observes it: relative time delta (seconds,
`float` in mido, modelled as `ℚ`), the meta flag, the channel field the
code stamps, and an opaque payload identifying the event. -/
structure Msg where
  time : ℚ
  is_meta : Bool
  channel : ℤ
  kind : ℕ
  deriving DecidableEq, Repr

/-- `msg.channel = c` (main.py:42). -/
def setChannel (c : ℤ) (m : Msg) : Msg := { m with channel := c }

/-! ### Natural sort (main.py:18-20)

`re.split('([0-9]+)', s)` splits a string into alternating non-digit /
digit parts, keeping the (possibly empty) non-digit parts at both ends.
`natural_sort_key` maps digit parts to their integer value and other
parts to their lowercase form; Python then compares keys listwise
(ints by value, strings by code point).  Cross-type comparison of
`int` vs `str` would raise `TypeError` in Python; it is unreachable
between two keys because every key alternates str/int/str/... from
position 0, so aligned positions always hold the same type.  `partCmp`
totalises that case arbitrarily (`.lt`). -/

/-- Maximal runs of characters grouped by `Char.isDigit`, tagged with
the digitness of the run. -/
def charRuns : List Char → List (Bool × List Char)
  | [] => []
  | c :: cs =>
    match charRuns cs with
    | [] => [(c.isDigit, [c])]
    | (b, g) :: rest =>
      if c.isDigit = b then (b, c :: g) :: rest
      else (c.isDigit, [c]) :: (b, g) :: rest

/-- `re.split('([0-9]+)', s)`: the runs, with an empty text part added in
front when the string starts with a digit run, at the back when it ends
with one, and `[""]` for the empty string. -/
def regexSplitDigits (cs : List Char) : List (List Char) :=
  match charRuns cs with
  | [] => [[]]
  | rs@(r0 :: _) =>
    let body := rs.map (·.2)
    let withFront := if r0.1 then [] :: body else body
    match rs.getLast? with
    | some (true, _) => withFront ++ [[]]
    | _ => withFront

/-- Decimal value of a digit run (`int(text)`). -/
def digitsToNat (part : List Char) : ℕ :=
  part.foldl (fun n c => 10 * n + (c.toNat - 48)) 0

/-- One component of the sort key:
`int(text) if text.isdigit() else text.lower()` (main.py:19). -/
def naturalSortPart (part : List Char) : ℕ ⊕ List Char :=
  if part ≠ [] ∧ part.all Char.isDigit then Sum.inl (digitsToNat part)
  else Sum.inr (part.map Char.toLower)

/-- `natural_sort_key` (main.py:18-20). -/
def natural_sort_key (s : String) : List (ℕ ⊕ List Char) :=
  (regexSplitDigits s.data).map naturalSortPart

/-- Three-way comparison of naturals (Python `int` comparison restricted
to the non-negative values appearing in keys). -/
def natCmp (a b : ℕ) : Ordering :=
  if a < b then .lt else if b < a then .gt else .eq

/-- Python `<`/`>`/`==` on characters compares code points. -/
def charCmp (c d : Char) : Ordering :=
  natCmp c.toNat d.toNat

/-- Lexicographic comparison of lists from a component comparison
(Python list/str comparison). -/
def lexCmp (f : α → α → Ordering) : List α → List α → Ordering
  | [], [] => .eq
  | [], _ :: _ => .lt
  | _ :: _, [] => .gt
  | a :: as, b :: bs =>
    match f a b with
    | .eq => lexCmp f as bs
    | o => o

/-- Comparison of single key components: ints by value, strings
lexicographically by code point.  The mixed cases are unreachable
between two well-formed keys (see section comment). -/
def partCmp : ℕ ⊕ List Char → ℕ ⊕ List Char → Ordering
  | .inl a, .inl b => natCmp a b
  | .inl _, .inr _ => .lt
  | .inr _, .inl _ => .gt
  | .inr a, .inr b => lexCmp charCmp a b

/-- `natural_sort_key a ≤ natural_sort_key b` as Python's `sorted`
resolves it. -/
def naturalLeB (a b : String) : Bool :=
  match lexCmp partCmp (natural_sort_key a) (natural_sort_key b) with
  | .gt => false
  | _ => true

/-- The sorting relation used for pattern filenames. -/
def naturalLe (a b : String) : Prop := naturalLeB a b = true

instance : DecidableRel naturalLe := fun a b => instDecidableEqBool _ _

/-- `sorted(filenames, key=natural_sort_key)` (main.py:77); Python's
stable sort modelled by the stable `insertionSort`. -/
def sortedFilenames (l : List String) : List String :=
  l.insertionSort naturalLe

/-! ### Python list primitives

`pyGetNat l i` is `l[i]` for a non-negative index, `pyGetInt` the general
`l[i]` including negative-index wrap-around, `pySetNat l i a` is
`l[i] = a`; out-of-range raises `IndexError`, as in Python. -/

/-- Python `l[i]` for a non-negative index. -/
def pyGetNat (l : List α) (i : ℕ) : Except String α :=
  match l[i]? with
  | some a => .ok a
  | none => .error "IndexError: list index out of range"

/-- Python `l[i]` for an arbitrary `int` index (negative wraps from the
end). -/
def pyGetInt (l : List α) (i : ℤ) : Except String α :=
  if 0 ≤ i then pyGetNat l i.toNat
  else if 0 ≤ (l.length : ℤ) + i then pyGetNat l ((l.length : ℤ) + i).toNat
  else .error "IndexError: list index out of range"

/-- Python `l[i] = a` for a non-negative index. -/
def pySetNat (l : List α) (i : ℕ) (a : α) : Except String (List α) :=
  if i < l.length then .ok (l.set i a) else .error "IndexError: list assignment index out of range"

/-! ### Track (main.py:22-58) -/

/-- The state of one `Track` thread: the owning output port (identified
by its index in the orchestra's opened-port list), the MIDI channel, the
message queue (`queue.Queue`, FIFO: `put` appends at the back, `get`
takes the front; `none` is the stop sentinel of main.py:37), and whether
a completion callback has been installed. -/
structure Track where
  outport : ℕ
  channel : ℤ
  msgQueue : List (Option (List Msg))
  hasCallback : Bool
  deriving DecidableEq, Repr

/-- `Track.__init__` (main.py:26-34): rejects a channel outside 0..15
with `ValueError` before any state is created. -/
def Track.init (outport : ℕ) (channel : ℤ) : Except String Track :=
  if ¬ (0 ≤ channel ∧ channel ≤ 15) then
    .error s!"channel number should be between 0 and 15 both included ({channel} given)"
  else
    .ok { outport := outport, channel := channel, msgQueue := [], hasCallback := false }

/-- `Track.queueMidi` (main.py:39-43): filter out meta messages, stamp
the channel on the rest, and put the list on the queue. -/
def Track.queueMidi (t : Track) (midi : List Msg) : Track :=
  let msgList := (midi.filter (fun m => !m.is_meta)).map (setChannel t.channel)
  { t with msgQueue := t.msgQueue ++ [some msgList] }

/-- `Track.stop` (main.py:36-37): put the `None` sentinel. -/
def Track.stop (t : Track) : Track :=
  { t with msgQueue := t.msgQueue ++ [none] }

/-- `Track.setCallback` (main.py:45-46). -/
def Track.setCallback (t : Track) : Track :=
  { t with hasCallback := true }

/-- The track the orchestrator builds for logical index i (main.py:93-95):
port i // 16, channel i % 16, empty queue, completion callback set. -/
def initTrack (i : ℕ) : Track :=
  { outport := i / 16, channel := ((i % 16 : ℕ) : ℤ), msgQueue := [], hasCallback := true }

/-- Observable actions of the `Track.run` loop (main.py:48-58):
sending a message on the port, invoking the completion callback,
resetting the port. -/
inductive TrackAction where
  | send : Msg → TrackAction
  | callback : TrackAction
  | reset : TrackAction
  deriving DecidableEq, Repr

/-- The trace of actions `Track.run` (main.py:48-58) produces while
consuming the given queue contents: for each dequeued message list, send
every message in order (each after its `time.sleep`, which does not
change the embedded state), then invoke the callback if installed; on
dequeuing the `None` sentinel, reset the port and return.  An exhausted
list means the thread is still blocked in `Queue.get` with no further
actions. -/
def trackRunTrace (hasCb : Bool) : List (Option (List Msg)) → List TrackAction
  | [] => []
  | none :: _ => [.reset]
  | some msgs :: rest =>
      msgs.map .send ++ (if hasCb then [.callback] else []) ++ trackRunTrace hasCb rest

/-! ### PatternOrchestra (main.py:61-152) -/

/-- Mutable state of `PatternOrchestra`: the loaded (sorted) pattern
library, the opened output port names, the tracks, the per-track current
pattern index (`None` before the first assignment), the data of the
allocation message printed at main.py:90-91 (actual, requested, ports
available, ports needed) if printed, and the per-advance decisions
printed at main.py:135 (track, from-index, to-index). -/
structure Orchestra where
  patterns : List (List Msg)
  outports : List String
  tracks : List Track
  curPatterns : List (Option ℤ)
  shortfallMsg : Option (ℤ × ℤ × ℤ × ℤ)
  log : List (ℕ × ℤ × ℤ)
  deriving DecidableEq, Repr

/-- `stepChance = .1` (main.py:133), the float literal modelled exactly. -/
def stepChance : ℚ := 1 / 10

/-- The sorting relation `sorted(..., key=natural_sort_key)` induces on
(filename, parsed content) pairs. -/
def fileLe (a b : String × List Msg) : Prop := naturalLe a.1 b.1

instance : DecidableRel fileLe := fun a b => instDecidableEqBool _ _

/-- `sorted(filenames, key=natural_sort_key)` followed by
`[mido.MidiFile(filename) for filename in sortedFilenames]`
(main.py:75-78), on (filename, parsed content) pairs. -/
def loadPatterns (files : List (String × List Msg)) : List (List Msg) :=
  (files.insertionSort fileLe).map (·.2)

/-- `PatternOrchestra.__init__` (main.py:62-97).

Arguments: the requested track count, the directory contents as
(filename, parsed messages) pairs (`os.listdir` + `mido.MidiFile`; the
common `patternsPath` prefix of `os.path.join` is dropped, it is shared
by every name), and the output-port names discovered by
`mido.get_output_names()` after the "loopMIDI" filter (main.py:84).

Faithful points: the `nbOfTracks < 1` `ValueError` (main.py:63-65); the
library emptiness check `if not patterns` (main.py:79-80); Python `//`
is floor division, `Int.fdiv` (for zero ports `maxNbOfTracks = 0` and
`(0-1)//16+1 = 0`, so nothing is opened and no error is raised);
the allocation message is printed whenever
`nbOfTracks >= maxNbOfTracks` (main.py:89); each `Track` is built from
`self._outports[trackNb//16]` (an indexing that could raise) and channel
`trackNb%16`, then gets its completion callback installed
(main.py:92-95); `self._curPatterns = [None]*len(self._tracks)`. -/
def orchestraInit (nbOfTracks : ℤ) (files : List (String × List Msg))
    (outportNames : List String) : Except String Orchestra := do
  if nbOfTracks < 1 then
    throw s!"nbOfTrack argument has to be at least 1 ({nbOfTracks} given)"
  let patterns := loadPatterns files
  if patterns.isEmpty then
    throw "no midi found"
  let outports := outportNames
  let maxNbOfTracks : ℤ := min nbOfTracks ((outports.length : ℤ) * 16)
  let maxNbOfOutPorts : ℤ := (maxNbOfTracks - 1).fdiv 16 + 1
  let neededNbOfOutports : ℤ := (nbOfTracks - 1).fdiv 16 + 1
  let shortfallMsg :=
    if maxNbOfTracks ≤ nbOfTracks then
      some (maxNbOfTracks, nbOfTracks, (outports.length : ℤ), neededNbOfOutports)
    else none
  let openedPorts ← (List.range maxNbOfOutPorts.toNat).mapM (fun i => pyGetNat outports i)
  let tracks ← (List.range maxNbOfTracks.toNat).mapM (fun trackNb => do
    let _ ← pyGetNat openedPorts (trackNb / 16)
    Track.init (trackNb / 16) ((trackNb % 16 : ℕ) : ℤ))
  let tracks := tracks.map Track.setCallback
  return { patterns := patterns, outports := openedPorts, tracks := tracks,
           curPatterns := List.replicate tracks.length none,
           shortfallMsg := shortfallMsg, log := [] }

/-- `PatternOrchestra.queuePatternOnTrack` (main.py:108-112): record the
index as the track's current pattern, and enqueue the pattern unless the
index is at or past the library size. -/
def Orchestra.queuePatternOnTrack (o : Orchestra) (patternNb : ℤ) (trackNb : ℕ) :
    Except String Orchestra := do
  let cps ← pySetNat o.curPatterns trackNb (some patternNb)
  let o1 := { o with curPatterns := cps }
  if (o1.patterns.length : ℤ) ≤ patternNb then
    return o1
  else
    let tr ← pyGetNat o1.tracks trackNb
    let pat ← pyGetInt o1.patterns patternNb
    let trs ← pySetNat o1.tracks trackNb (tr.queueMidi pat)
    return { o1 with tracks := trs }

/-- `PatternOrchestra.queueNeighbourPatternOnTrack` (main.py:114-116);
`None + stepSize` would raise `TypeError`. -/
def Orchestra.queueNeighbourPatternOnTrack (o : Orchestra) (stepSize : ℤ) (trackNb : ℕ) :
    Except String Orchestra := do
  let curOpt ← pyGetNat o.curPatterns trackNb
  match curOpt with
  | none => throw "TypeError: unsupported operand NoneType + int"
  | some cur => o.queuePatternOnTrack (cur + stepSize) trackNb

/-- `PatternOrchestra.repeat` (main.py:118-119). -/
def Orchestra.repeatTrack (o : Orchestra) (trackNb : ℕ) : Except String Orchestra :=
  o.queueNeighbourPatternOnTrack 0 trackNb

/-- `PatternOrchestra.next` (main.py:121-122). -/
def Orchestra.nextTrack (o : Orchestra) (trackNb : ℕ) : Except String Orchestra :=
  o.queueNeighbourPatternOnTrack 1 trackNb

/-- `PatternOrchestra.beforeStart` (main.py:124-127): seed pattern 0 on
track 0 and pattern 1 on every other track. -/
def Orchestra.beforeStart (o : Orchestra) : Except String Orchestra := do
  let o1 ← o.queuePatternOnTrack 0 0
  (List.range' 1 (o1.tracks.length - 1)).foldlM
    (fun acc i => acc.queuePatternOnTrack 1 i) o1

/-- `PatternOrchestra.advanceTrack` (main.py:129-138), the handler the
`run` loop (main.py:148-152) applies to each completion event.  The
ambient `random.random()` draw is the explicit parameter `r` (a fresh
uniform value in `[0,1)` for each call); `trackNb is 0` is `trackNb = 0`
(CPython small-int caching makes `is` behave as `==` here).  Track 0
always repeats; otherwise a draw below `stepChance` logs the decision
(main.py:135 reads the current index for the print, `TypeError` on
`None`) and steps to the next pattern, any other draw repeats. -/
def Orchestra.advanceTrack (o : Orchestra) (r : ℚ) (trackNb : ℕ) :
    Except String Orchestra := do
  if trackNb = 0 then
    o.repeatTrack trackNb
  else if r < stepChance then
    let curOpt ← pyGetNat o.curPatterns trackNb
    match curOpt with
    | none => throw "TypeError: unsupported operand NoneType + int"
    | some cur =>
      let o1 := { o with log := o.log ++ [(trackNb, cur, cur + 1)] }
      o1.nextTrack trackNb
  else
    o.repeatTrack trackNb

/-! ### Concrete states used to instantiate the parametric theorems -/

/-- A sounding (non-meta) message on channel 5. -/
def msgA : Msg := { time := 0, is_meta := false, channel := 5, kind := 37 }

/-- A second sounding message. -/
def msgB : Msg := { time := 1, is_meta := false, channel := 0, kind := 38 }

/-- A meta message (as mido parses, e.g., a tempo event). -/
def msgMeta : Msg := { time := 0, is_meta := true, channel := 0, kind := 99 }

/-- A small running orchestra state: two tracks on one port, a
two-pattern library, both tracks currently at pattern 0. -/
def demoOrch : Orchestra :=
  { patterns := [[msgA], [msgB, msgA]],
    outports := ["P0"],
    tracks := [{ outport := 0, channel := 0, msgQueue := [], hasCallback := true },
               { outport := 0, channel := 1, msgQueue := [], hasCallback := true }],
    curPatterns := [some 0, some 0],
    shortfallMsg := some (2, 2, 1, 1),
    log := [] }

/-! ## Helper lemmas -/

theorem except_bind_ok {ε α β} (a : α) (f : α → Except ε β) :
    (Except.ok a : Except ε α) >>= f = f a := rfl

theorem except_pure_def {ε α} (a : α) : (pure a : Except ε α) = Except.ok a := rfl

theorem list_set_self {α} (l : List α) (n : ℕ) (a : α) (h : l[n]? = some a) :
    l.set n a = l := by
  have hn : n < l.length := by
    by_contra hc
    rw [List.getElem?_eq_none (by omega)] at h
    cases h
  apply List.ext_getElem?
  intro i
  rw [List.getElem?_set]
  split
  · next heq => subst heq; exact h.symm
  · rfl

theorem natCmp_eq_iff (a b : ℕ) : natCmp a b = .eq ↔ a = b := by
  unfold natCmp; split_ifs <;> simp_all <;> omega

theorem natCmp_gt_iff (a b : ℕ) : natCmp a b = .gt ↔ natCmp b a = .lt := by
  unfold natCmp; split_ifs <;> simp_all <;> omega

theorem natCmp_lt_trans {a b c : ℕ} (h1 : natCmp a b = .lt) (h2 : natCmp b c = .lt) :
    natCmp a c = .lt := by
  unfold natCmp at h1 h2 ⊢; split_ifs at h1 h2 ⊢ <;> simp_all <;> omega

theorem charCmp_eq_iff (c d : Char) : charCmp c d = .eq ↔ c = d := by
  unfold charCmp
  rw [natCmp_eq_iff]
  exact ⟨fun h => Char.ext (UInt32.ext h), fun h => by rw [h]⟩

theorem charCmp_gt_iff (c d : Char) : charCmp c d = .gt ↔ charCmp d c = .lt :=
  natCmp_gt_iff _ _

theorem charCmp_lt_trans {a b c : Char} (h1 : charCmp a b = .lt) (h2 : charCmp b c = .lt) :
    charCmp a c = .lt :=
  natCmp_lt_trans h1 h2

theorem lexCmp_eq_iff {α} {f : α → α → Ordering} (hf : ∀ a b, f a b = .eq ↔ a = b)
    (x y : List α) : lexCmp f x y = .eq ↔ x = y := by
  induction x generalizing y with
  | nil => cases y <;> simp [lexCmp]
  | cons a as ih =>
    cases y with
    | nil => simp [lexCmp]
    | cons b bs =>
      cases hab : f a b with
      | eq =>
        obtain rfl : a = b := (hf a b).mp hab
        simp only [lexCmp]
        rw [hab]
        simp only [List.cons.injEq, true_and]
        exact ih bs
      | lt =>
        simp only [lexCmp]
        rw [hab]
        simp only [List.cons.injEq]
        constructor
        · intro h; exact Ordering.noConfusion h
        · rintro ⟨rfl, -⟩
          rw [(hf a a).mpr rfl] at hab
          exact Ordering.noConfusion hab
      | gt =>
        simp only [lexCmp]
        rw [hab]
        simp only [List.cons.injEq]
        constructor
        · intro h; exact Ordering.noConfusion h
        · rintro ⟨rfl, -⟩
          rw [(hf a a).mpr rfl] at hab
          exact Ordering.noConfusion hab

theorem lexCmp_gt_iff {α} {f : α → α → Ordering} (hfeq : ∀ a b, f a b = .eq ↔ a = b)
    (hfgt : ∀ a b, f a b = .gt ↔ f b a = .lt)
    (x y : List α) : lexCmp f x y = .gt ↔ lexCmp f y x = .lt := by
  induction x generalizing y with
  | nil => cases y <;> simp [lexCmp]
  | cons a as ih =>
    cases y with
    | nil => simp [lexCmp]
    | cons b bs =>
      cases hab : f a b with
      | eq =>
        obtain rfl : a = b := (hfeq a b).mp hab
        simp only [lexCmp]
        rw [hab]
        exact ih bs
      | lt =>
        have hba : f b a = .gt := (hfgt b a).mpr hab
        simp only [lexCmp]
        rw [hab, hba]
        exact ⟨fun h => Ordering.noConfusion h, fun h => Ordering.noConfusion h⟩
      | gt =>
        have hba : f b a = .lt := (hfgt a b).mp hab
        simp only [lexCmp]
        rw [hab, hba]
        exact ⟨fun _ => rfl, fun _ => rfl⟩

theorem lexCmp_lt_trans {α} {f : α → α → Ordering} (hfeq : ∀ a b, f a b = .eq ↔ a = b)
    (hflt : ∀ a b c, f a b = .lt → f b c = .lt → f a c = .lt)
    (x y z : List α) (h1 : lexCmp f x y = .lt) (h2 : lexCmp f y z = .lt) :
    lexCmp f x z = .lt := by
  induction x generalizing y z with
  | nil =>
    cases z with
    | nil =>
      cases y with
      | nil => exact h1
      | cons b bs => exact Ordering.noConfusion h2
    | cons c cs => rfl
  | cons a as ih =>
    cases y with
    | nil => exact Ordering.noConfusion h1
    | cons b bs =>
      cases z with
      | nil => exact Ordering.noConfusion h2
      | cons c cs =>
        simp only [lexCmp] at h1 h2 ⊢
        cases hab : f a b with
        | eq =>
          obtain rfl : a = b := (hfeq a b).mp hab
          rw [hab] at h1
          cases hac : f a c with
          | eq =>
            obtain rfl : a = c := (hfeq a c).mp hac
            rw [hac] at h2
            exact ih bs cs h1 h2
          | lt => rfl
          | gt => rw [hac] at h2; exact Ordering.noConfusion h2
        | lt =>
          cases hbc : f b c with
          | eq =>
            obtain rfl : b = c := (hfeq b c).mp hbc
            rw [hab]
          | lt => rw [hflt a b c hab hbc]
          | gt => rw [hbc] at h2; exact Ordering.noConfusion h2
        | gt => rw [hab] at h1; exact Ordering.noConfusion h1

theorem partCmp_eq_iff (a b : ℕ ⊕ List Char) : partCmp a b = .eq ↔ a = b := by
  cases a <;> cases b <;>
    simp [partCmp, natCmp_eq_iff, lexCmp_eq_iff charCmp_eq_iff]

theorem partCmp_gt_iff (a b : ℕ ⊕ List Char) : partCmp a b = .gt ↔ partCmp b a = .lt := by
  cases a <;> cases b <;>
    simp [partCmp, natCmp_gt_iff, lexCmp_gt_iff charCmp_eq_iff charCmp_gt_iff]

theorem partCmp_lt_trans {a b c : ℕ ⊕ List Char} (h1 : partCmp a b = .lt)
    (h2 : partCmp b c = .lt) : partCmp a c = .lt := by
  cases a <;> cases b <;> cases c <;> simp_all [partCmp]
  · exact natCmp_lt_trans h1 h2
  · exact lexCmp_lt_trans charCmp_eq_iff (fun _ _ _ => charCmp_lt_trans) _ _ _ h1 h2

theorem naturalLeB_total (a b : String) : naturalLeB a b = true ∨ naturalLeB b a = true := by
  unfold naturalLeB
  cases h : lexCmp partCmp (natural_sort_key a) (natural_sort_key b) with
  | lt => left; rfl
  | eq => left; rfl
  | gt =>
    right
    rw [(lexCmp_gt_iff partCmp_eq_iff partCmp_gt_iff _ _).mp h]

theorem naturalLeB_trans (a b c : String) (h1 : naturalLeB a b = true)
    (h2 : naturalLeB b c = true) : naturalLeB a c = true := by
  unfold naturalLeB at h1 h2 ⊢
  cases hab : lexCmp partCmp (natural_sort_key a) (natural_sort_key b) with
  | gt => rw [hab] at h1; exact Bool.noConfusion h1
  | eq =>
    rw [(lexCmp_eq_iff partCmp_eq_iff _ _).mp hab]
    exact h2
  | lt =>
    cases hbc : lexCmp partCmp (natural_sort_key b) (natural_sort_key c) with
    | gt => rw [hbc] at h2; exact Bool.noConfusion h2
    | eq =>
      rw [← (lexCmp_eq_iff partCmp_eq_iff _ _).mp hbc, hab]
    | lt =>
      rw [lexCmp_lt_trans partCmp_eq_iff (fun _ _ _ => partCmp_lt_trans) _ _ _ hab hbc]

/-! ## C7: natural ordering of the pattern library -/

/-- C7.  For every list of filenames, the pattern library orders files by
natural comparison (the result is a permutation of the input sorted under
the natural-key order); embedded numeric runs compare by integer value
and non-numeric runs compare case-insensitively; "pattern2" sorts before
"pattern10" (their keys split the numeric runs out and compare 2 < 10 as
integers); ["p2","p10","p1"] sorts as ["p1","p2","p10"]. -/
theorem natural_sort_orders_library :
    (∀ l : List String, (sortedFilenames l).Perm l) ∧
    (∀ l : List String, List.Sorted naturalLe (sortedFilenames l)) ∧
    (naturalLe "pattern2" "pattern10" ∧ ¬ naturalLe "pattern10" "pattern2") ∧
    (natural_sort_key "pattern2" = [Sum.inr "pattern".data, Sum.inl 2, Sum.inr []] ∧
     natural_sort_key "pattern10" = [Sum.inr "pattern".data, Sum.inl 10, Sum.inr []]) ∧
    (naturalLe "A1b" "a1B" ∧ naturalLe "a1B" "A1b") ∧
    sortedFilenames ["p2", "p10", "p1"] = ["p1", "p2", "p10"] := by
  refine ⟨fun l => List.perm_insertionSort _ l, fun l => ?_, by decide, by decide, by decide,
    by decide⟩
  exact @List.sorted_insertionSort String naturalLe _
    ⟨fun a b => naturalLeB_total a b⟩
    ⟨fun a b c hab hbc => naturalLeB_trans a b c hab hbc⟩ l

/-! ## C1: the Track playback loop drains its queue in order -/

/-- C1.  For a track whose pending queue holds the message lists
P1, ..., Pk followed by the stop sentinel, with a completion sink
registered, the run loop emits exactly: all events of P1 in stored
order, then one callback, ..., all events of Pk in stored order, then
one callback, and finally the port reset on dequeuing the sentinel —
after which it terminates with no further callback. -/
theorem track_run_plays_queue_in_order (patterns : List (List Msg)) :
    trackRunTrace true (patterns.map some ++ [none]) =
      (patterns.map (fun p => p.map TrackAction.send ++ [TrackAction.callback])).flatten
        ++ [TrackAction.reset] := by
  induction patterns with
  | nil => rfl
  | cons p ps ih =>
    simp [trackRunTrace, ih, List.flatten]

/-! ## C8: where meta events are stripped -/

/-- C8 counterexample.  Loading a library whose single file contains a
meta event keeps that meta event inside the in-memory pattern: with
msgMeta.is_meta = true, the loaded library is [[msgMeta, msgA]].  So it
is false that, after load completes, every in-memory pattern contains
only sounding events — stripping does not happen at load time. -/
theorem library_keeps_meta_events :
    (orchestraInit 1 [("p", [msgMeta, msgA])] ["P0"]).map Orchestra.patterns =
      .ok [[msgMeta, msgA]] ∧ msgMeta.is_meta = true := by
  constructor
  · decide
  · rfl

/-- C8 amended.  Meta events are stripped when a pattern is enqueued on
a track, not at load time: Track.queueMidi appends exactly the list of
non-meta messages of the pattern, stamped with the track's channel, and
every message in that enqueued list is non-meta.  Hence tracks never
play meta events even though the library retains them. -/
theorem queueMidi_strips_meta (t : Track) (midi : List Msg) :
    t.queueMidi midi =
      { t with msgQueue := t.msgQueue ++
          [some ((midi.filter (fun m => !m.is_meta)).map (setChannel t.channel))] } ∧
    ((midi.filter (fun m => !m.is_meta)).map (setChannel t.channel)).all
      (fun m => !m.is_meta) = true := by
  refine ⟨rfl, ?_⟩
  simp only [List.all_eq_true, List.mem_map, List.mem_filter]
  rintro m ⟨m0, ⟨-, hm0⟩, rfl⟩
  exact hm0

/-! ## C10: the Track channel guard -/

/-- C10.  Constructing a Track with a channel outside 0..15 fails with
the ValueError (before any state is created: the Except value carries no
Track), and every Track the orchestrator constructs uses channel
trackNb mod 16, for which construction always succeeds — the error
branch is unreachable in the assembled system. -/
theorem track_channel_guard :
    (∀ (p : ℕ) (c : ℤ), (c < 0 ∨ 15 < c) →
      Track.init p c =
        .error s!"channel number should be between 0 and 15 both included ({c} given)") ∧
    (∀ (p trackNb : ℕ),
      Track.init p ((trackNb % 16 : ℕ) : ℤ) =
        .ok { outport := p, channel := ((trackNb % 16 : ℕ) : ℤ),
              msgQueue := [], hasCallback := false }) := by
  constructor
  · intro p c hc
    unfold Track.init
    rw [if_pos]
    push_neg
    intro h0
    omega
  · intro p trackNb
    unfold Track.init
    rw [if_neg]
    push_neg
    constructor <;> [positivity; skip]
    have : trackNb % 16 < 16 := Nat.mod_lt _ (by omega)
    exact_mod_cast Nat.le_of_lt_succ (by omega)

/-- Witness for C10 at concrete inputs: channel -3 is rejected with the
formatted ValueError; channel 21 mod 16 = 5 is accepted. -/
theorem track_channel_guard_witness :
    Track.init 3 (-3) =
      .error "channel number should be between 0 and 15 both included (-3 given)" ∧
    Track.init 1 ((21 % 16 : ℕ) : ℤ) =
      .ok { outport := 1, channel := ((21 % 16 : ℕ) : ℤ),
            msgQueue := [], hasCallback := false } :=
  ⟨track_channel_guard.1 3 (-3) (Or.inl (by decide)), track_channel_guard.2 1 21⟩

/-! ## Effect lemmas for the queueing operations -/

theorem lt_length_of_getElem?_some {α} {l : List α} {n : ℕ} {a : α} (h : l[n]? = some a) :
    n < l.length := by
  by_contra hc
  rw [List.getElem?_eq_none (by omega)] at h
  cases h

theorem queuePattern_overflow_eq (o : Orchestra) (p : ℤ) (t : ℕ)
    (ht : t < o.curPatterns.length) (hp : (o.patterns.length : ℤ) ≤ p) :
    o.queuePatternOnTrack p t =
      .ok { o with curPatterns := o.curPatterns.set t (some p) } := by
  unfold Orchestra.queuePatternOnTrack pySetNat
  simp [ht, hp, except_bind_ok, except_pure_def]

theorem queuePattern_inrange_eq (o : Orchestra) (p : ℤ) (t : ℕ) (tr : Track) (pat : List Msg)
    (ht : t < o.curPatterns.length) (h0 : 0 ≤ p) (hp : p < (o.patterns.length : ℤ))
    (htr : o.tracks[t]? = some tr) (hpat : o.patterns[p.toNat]? = some pat) :
    o.queuePatternOnTrack p t =
      .ok { o with curPatterns := o.curPatterns.set t (some p),
                   tracks := o.tracks.set t (tr.queueMidi pat) } := by
  have ht2 : t < o.tracks.length := lt_length_of_getElem?_some htr
  unfold Orchestra.queuePatternOnTrack pySetNat pyGetInt
  simp [pyGetNat, ht, ht2, not_le.mpr hp, h0, htr, hpat, except_bind_ok, except_pure_def]

theorem queueNeighbour_eq (o : Orchestra) (s : ℤ) (t : ℕ) (cur : ℤ)
    (hc : o.curPatterns[t]? = some (some cur)) :
    o.queueNeighbourPatternOnTrack s t = o.queuePatternOnTrack (cur + s) t := by
  unfold Orchestra.queueNeighbourPatternOnTrack pyGetNat
  simp [hc, except_bind_ok]

/-! ## C2: the stochastic advance rule -/

/-- C2.  On a completion event for track t (with current index in
library range): if t = 0 the track always repeats — the current index is
left unchanged and the same pattern is enqueued again on the track,
independent of the random draw; if t > 0 and the drawn value r is below
stepChance = 1/10 the current index becomes cur + 1 and the decision is
appended to the log; otherwise the index stays and the same pattern is
re-enqueued with nothing logged. -/
theorem advanceTrack_stochastic_rule (o : Orchestra) (r : ℚ) (t : ℕ) (cur : ℤ)
    (tr : Track) (pat : List Msg)
    (hc : o.curPatterns[t]? = some (some cur))
    (h0 : 0 ≤ cur) (hcur : cur < (o.patterns.length : ℤ))
    (htr : o.tracks[t]? = some tr)
    (hpat : o.patterns[cur.toNat]? = some pat) :
    (t = 0 → o.advanceTrack r t =
        .ok { o with tracks := o.tracks.set t (tr.queueMidi pat) }) ∧
    (t ≠ 0 → r < stepChance → ∃ o1, o.advanceTrack r t = .ok o1 ∧
        o1.curPatterns = o.curPatterns.set t (some (cur + 1)) ∧
        o1.log = o.log ++ [(t, cur, cur + 1)]) ∧
    (t ≠ 0 → ¬ r < stepChance → o.advanceTrack r t =
        .ok { o with tracks := o.tracks.set t (tr.queueMidi pat) }) := by
  have ht : t < o.curPatterns.length := lt_length_of_getElem?_some hc
  have hrep : o.repeatTrack t = .ok { o with tracks := o.tracks.set t (tr.queueMidi pat) } := by
    rw [Orchestra.repeatTrack, queueNeighbour_eq o 0 t cur hc, add_zero,
      queuePattern_inrange_eq o cur t tr pat ht h0 hcur htr hpat,
      list_set_self _ _ _ hc]
  refine ⟨?_, ?_, ?_⟩
  · intro h0t
    subst h0t
    rw [Orchestra.advanceTrack, if_pos rfl]
    exact hrep
  · intro h0t hr
    rw [Orchestra.advanceTrack, if_neg h0t, if_pos hr]
    unfold pyGetNat
    rw [hc]
    simp only [except_bind_ok]
    have hc1 : (({ o with log := o.log ++ [(t, cur, cur + 1)] } : Orchestra)).curPatterns[t]? =
        some (some cur) := hc
    rw [Orchestra.nextTrack, queueNeighbour_eq _ 1 t cur hc1]
    have htb : t <
        (({ o with log := o.log ++ [(t, cur, cur + 1)] } : Orchestra)).curPatterns.length := ht
    by_cases hlt : cur + 1 < (o.patterns.length : ℤ)
    · have hlt2 : (cur + 1).toNat < o.patterns.length := by omega
      have h0b : (0 : ℤ) ≤ cur + 1 := by omega
      have hpb : cur + 1 <
          ((({ o with log := o.log ++ [(t, cur, cur + 1)] } : Orchestra)).patterns.length : ℤ) :=
        hlt
      have htrb : (({ o with log := o.log ++ [(t, cur, cur + 1)] } : Orchestra)).tracks[t]? =
          some tr := htr
      have hpatb : (({ o with log := o.log ++ [(t, cur, cur + 1)] } :
          Orchestra)).patterns[(cur + 1).toNat]? = some (o.patterns[(cur + 1).toNat]) :=
        List.getElem?_eq_getElem hlt2
      exact ⟨_, queuePattern_inrange_eq _ (cur + 1) t tr (o.patterns[(cur + 1).toNat])
        htb h0b hpb htrb hpatb, rfl, rfl⟩
    · have hgeb : ((({ o with log := o.log ++ [(t, cur, cur + 1)] } :
          Orchestra)).patterns.length : ℤ) ≤ cur + 1 := by
        show (o.patterns.length : ℤ) ≤ cur + 1
        omega
      exact ⟨_, queuePattern_overflow_eq _ (cur + 1) t htb hgeb, rfl, rfl⟩
  · intro h0t hr
    rw [Orchestra.advanceTrack, if_neg h0t, if_neg hr]
    exact hrep

/-- Witness for C2: on demoOrch (two tracks at index 0, two patterns),
a completion for track 1 with draw 1/20 < 1/10 steps it to index 1 and
logs the decision. -/
theorem advanceTrack_stochastic_rule_witness :
    ∃ o1, demoOrch.advanceTrack (1/20) 1 = .ok o1 ∧
      o1.curPatterns = demoOrch.curPatterns.set 1 (some (0 + 1)) ∧
      o1.log = demoOrch.log ++ [(1, 0, 0 + 1)] :=
  (advanceTrack_stochastic_rule demoOrch (1/20) 1 0
      { outport := 0, channel := 1, msgQueue := [], hasCallback := true } [msgA]
      (by decide) (by decide) (by decide) (by decide) (by decide)).2.1
    (by decide) (by norm_num [stepChance])

/-! ## C5: the overflow policy -/

/-- C5.  Queuing an out-of-range pattern index p (at or past the library
size) on track t stores p as the track's current index while enqueuing
nothing (tracks are untouched), and a subsequent step decision for t
(t nonzero, draw below stepChance) moves the stored index to p + 1 —
still enqueuing nothing and raising no error. -/
theorem overflow_keeps_incrementing (o : Orchestra) (t : ℕ) (p : ℤ) (r : ℚ)
    (ht : t < o.curPatterns.length) (hp : (o.patterns.length : ℤ) ≤ p)
    (ht0 : t ≠ 0) (hr : r < stepChance) :
    o.queuePatternOnTrack p t =
      .ok { o with curPatterns := o.curPatterns.set t (some p) } ∧
    { o with curPatterns := o.curPatterns.set t (some p) }.advanceTrack r t =
      .ok { o with curPatterns := (o.curPatterns.set t (some p)).set t (some (p + 1)),
                   log := o.log ++ [(t, p, p + 1)] } := by
  refine ⟨queuePattern_overflow_eq o p t ht hp, ?_⟩
  have hc1 : (({ o with curPatterns := o.curPatterns.set t (some p) } :
      Orchestra)).curPatterns[t]? = some (some p) := List.getElem?_set_self ht
  rw [Orchestra.advanceTrack, if_neg ht0, if_pos hr]
  unfold pyGetNat
  rw [hc1]
  simp only [except_bind_ok]
  have hc2 : (({ o with
      curPatterns := o.curPatterns.set t (some p)
      log := o.log ++ [(t, p, p + 1)] } : Orchestra)).curPatterns[t]? = some (some p) :=
    List.getElem?_set_self ht
  rw [Orchestra.nextTrack, queueNeighbour_eq _ 1 t p hc2]
  have ht2 : t < (({ o with
      curPatterns := o.curPatterns.set t (some p)
      log := o.log ++ [(t, p, p + 1)] } : Orchestra)).curPatterns.length := by
    simpa using ht
  have hge2 : ((({ o with
      curPatterns := o.curPatterns.set t (some p)
      log := o.log ++ [(t, p, p + 1)] } : Orchestra)).patterns.length : ℤ) ≤ p + 1 := by
    show (o.patterns.length : ℤ) ≤ p + 1
    omega
  exact queuePattern_overflow_eq _ (p + 1) t ht2 hge2

/-- Witness for C5: on demoOrch (library size 2), queuing index 5 on
track 1 stores 5 with nothing enqueued, and a following step decision
(draw 1/20) moves the stored index to 6. -/
theorem overflow_keeps_incrementing_witness :
    demoOrch.queuePatternOnTrack 5 1 =
      .ok { demoOrch with curPatterns := demoOrch.curPatterns.set 1 (some 5) } ∧
    { demoOrch with curPatterns := demoOrch.curPatterns.set 1 (some 5) }.advanceTrack (1/20) 1 =
      .ok { demoOrch with
            curPatterns := (demoOrch.curPatterns.set 1 (some 5)).set 1 (some (5 + 1)),
            log := demoOrch.log ++ [(1, 5, 5 + 1)] } :=
  overflow_keeps_incrementing demoOrch 1 5 (1/20) (by decide) (by decide) (by decide)
    (by norm_num [stepChance])

/-! ## Closed form of orchestraInit -/

theorem mapM_ok_of_forall {α β} (l : List α) (f : α → Except String β) (g : α → β)
    (h : ∀ a ∈ l, f a = .ok (g a)) : l.mapM f = .ok (l.map g) := by
  induction l with
  | nil => rfl
  | cons a as ih =>
    rw [List.mapM_cons, h a (by simp)]
    simp only [except_bind_ok]
    rw [ih (fun b hb => h b (by simp [hb]))]
    rfl

theorem range_mapM_pyGet {α} (l : List α) (k s : ℕ) :
    s + k ≤ l.length →
    (List.range' s k).mapM (fun i => pyGetNat l i) = .ok ((l.drop s).take k) := by
  induction k generalizing s with
  | zero =>
    intro h
    simp only [show List.range' s 0 = [] from rfl, List.mapM_nil, except_pure_def,
      List.take_zero]
  | succ k ih =>
    intro h
    rw [List.range'_succ, List.mapM_cons]
    have hs : s < l.length := by omega
    have h1 : pyGetNat l s = .ok l[s] := by simp [pyGetNat, List.getElem?_eq_getElem hs]
    rw [h1]
    simp only [except_bind_ok]
    rw [ih (s + 1) (by omega)]
    simp only [except_bind_ok]
    rw [List.drop_eq_getElem_cons hs, List.take_succ_cons]
    rfl

theorem orchestraInit_ok (n : ℤ) (files : List (String × List Msg)) (ports : List String)
    (h1 : 1 ≤ n) (hf : files ≠ []) :
    orchestraInit n files ports =
      .ok { patterns := loadPatterns files,
            outports := ports.take (((min n ((ports.length : ℤ) * 16)).toNat + 15) / 16),
            tracks := (List.range (min n ((ports.length : ℤ) * 16)).toNat).map initTrack,
            curPatterns :=
              List.replicate (min n ((ports.length : ℤ) * 16)).toNat (none : Option ℤ),
            shortfallMsg := some (min n ((ports.length : ℤ) * 16), n, (ports.length : ℤ),
              (n - 1).fdiv 16 + 1),
            log := [] } := by
  have hkc : ((min n ((ports.length : ℤ) * 16)).toNat : ℤ) = min n ((ports.length : ℤ) * 16) := by
    omega
  set k : ℕ := (min n ((ports.length : ℤ) * 16)).toNat with hk
  have hk16 : (k : ℤ) ≤ (ports.length : ℤ) * 16 := by omega
  have hne : ¬ ((loadPatterns files).isEmpty = true) := by
    have hlen : (loadPatterns files).length = files.length := by
      simp [loadPatterns, List.length_insertionSort]
    simp only [List.isEmpty_iff]
    intro hnil
    apply hf
    have : files.length = 0 := by rw [← hlen, hnil]; rfl
    exact List.length_eq_zero.mp this
  have hmop : ((min n ((ports.length : ℤ) * 16) - 1).fdiv 16 + 1).toNat = (k + 15) / 16 := by
    rcases Nat.eq_zero_or_pos k with hk0 | hkpos
    · have hmin0 : min n ((ports.length : ℤ) * 16) = 0 := by omega
      rw [hmin0, hk0]
      decide
    · have hmin : min n ((ports.length : ℤ) * 16) = (k : ℤ) := hkc.symm
      rw [hmin, show (k : ℤ) - 1 = ((k - 1 : ℕ) : ℤ) by omega,
        show (16 : ℤ) = ((16 : ℕ) : ℤ) from rfl, ← Int.ofNat_fdiv]
      omega
  have hmop_le : (k + 15) / 16 ≤ ports.length := by omega
  have hopen : (List.range ((min n ((ports.length : ℤ) * 16) - 1).fdiv 16 + 1).toNat).mapM
      (fun i => pyGetNat ports i) = .ok (ports.take ((k + 15) / 16)) := by
    rw [hmop, List.range_eq_range', ← List.drop_zero ports]
    exact range_mapM_pyGet ports ((k + 15) / 16) 0 (by omega)
  have htracks : (List.range (min n ((ports.length : ℤ) * 16)).toNat).mapM
      (fun trackNb => do
        let _ ← pyGetNat (ports.take ((k + 15) / 16)) (trackNb / 16)
        Track.init (trackNb / 16) ((trackNb % 16 : ℕ) : ℤ)) =
      .ok ((List.range k).map
        (fun i => { outport := i / 16, channel := ((i % 16 : ℕ) : ℤ),
                    msgQueue := [], hasCallback := false })) := by
    rw [← hk]
    apply mapM_ok_of_forall
    intro i hi
    have hik : i < k := List.mem_range.mp hi
    have hi16 : i / 16 < (ports.take ((k + 15) / 16)).length := by
      rw [List.length_take]
      omega
    have hp1 : pyGetNat (ports.take ((k + 15) / 16)) (i / 16) =
        .ok ((ports.take ((k + 15) / 16))[i / 16]) := by
      simp [pyGetNat, List.getElem?_eq_getElem hi16]
    rw [show ((do
        let _ ← pyGetNat (ports.take ((k + 15) / 16)) (i / 16)
        Track.init (i / 16) ((i % 16 : ℕ) : ℤ)) : Except String Track) =
      pyGetNat (ports.take ((k + 15) / 16)) (i / 16) >>= fun _ =>
        Track.init (i / 16) ((i % 16 : ℕ) : ℤ) from rfl, hp1]
    simp only [except_bind_ok]
    unfold Track.init
    rw [if_neg (by push_neg; omega)]
  unfold orchestraInit
  rw [if_neg (show ¬ n < 1 by omega)]
  simp only [except_bind_ok, hne, if_false, Bool.false_eq_true, hopen, htracks,
    except_pure_def, List.map_map, List.length_map, List.length_range]
  rw [if_pos (show n ⊓ ((ports.length : ℤ) * 16) ≤ n from inf_le_left)]
  simp [Track.setCallback, Function.comp, initTrack]

theorem except_bind_err {ε α β} (e : ε) (f : α → Except ε β) :
    (Except.error e : Except ε α) >>= f = Except.error e := rfl

/-! ## C3: track/port allocation -/

/-- C3.  For a requested track count of at least 1 and a non-empty port
list, allocation succeeds; the granted track count is
min(requested, 16 * ports); track i is assigned port i / 16 and channel
i mod 16; exactly ceil(actual / 16) ports are opened — the first ones of
the list, one handle per distinct port, every track referring to an
opened one.  In particular requesting 20 tracks on 1 port grants 16
tracks, and requesting 10 tracks on 2 ports grants 10 tracks all on
port 0. -/
theorem allocation_spec (n : ℤ) (files : List (String × List Msg)) (ports : List String)
    (h1 : 1 ≤ n) (hp : ports ≠ []) (hf : files ≠ []) :
    (∃ o, orchestraInit n files ports = .ok o ∧
      (o.tracks.length : ℤ) = min n ((ports.length : ℤ) * 16) ∧
      (∀ (i : ℕ) (tr : Track), o.tracks[i]? = some tr →
        tr.outport = i / 16 ∧ tr.channel = ((i % 16 : ℕ) : ℤ)) ∧
      o.outports = ports.take ((o.tracks.length + 15) / 16) ∧
      o.outports.length = (o.tracks.length + 15) / 16 ∧
      (∀ tr ∈ o.tracks, tr.outport < o.outports.length)) ∧
    (orchestraInit 20 [("p", [])] ["P0"]).map (fun o => o.tracks.length) = .ok 16 ∧
    (orchestraInit 10 [("p", [])] ["P0", "P1"]).map
      (fun o => (o.tracks.length, o.tracks.map Track.outport)) =
      .ok (10, List.replicate 10 0) := by
  refine ⟨?_, by decide, by decide⟩
  have hkc : ((min n ((ports.length : ℤ) * 16)).toNat : ℤ) = min n ((ports.length : ℤ) * 16) := by
    omega
  have hk16 : ((min n ((ports.length : ℤ) * 16)).toNat : ℤ) ≤ (ports.length : ℤ) * 16 := by
    omega
  refine ⟨_, orchestraInit_ok n files ports h1 hf, ?_, ?_, ?_, ?_, ?_⟩
  · simp only [List.length_map, List.length_range]
    omega
  · intro i tr htr
    rw [List.getElem?_map] at htr
    have hik : i < (min n ((ports.length : ℤ) * 16)).toNat := by
      rcases h3 : (List.range ((min n ((ports.length : ℤ) * 16)).toNat))[i]? with - | j
      · rw [h3] at htr; simp at htr
      · have hlt := lt_length_of_getElem?_some h3
        simpa using hlt
    rw [List.getElem?_range hik] at htr
    cases htr
    exact ⟨rfl, rfl⟩
  · simp only [List.length_map, List.length_range]
  · simp only [List.length_map, List.length_range, List.length_take]
    omega
  · intro tr htr
    simp only [List.mem_map, List.mem_range] at htr
    obtain ⟨i, hik, rfl⟩ := htr
    simp only [List.length_take, initTrack]
    omega

/-! ## C4: behaviour with zero available ports -/

/-- C4 counterexample.  With an empty port list and 5 requested tracks,
construction does not fail at all: it returns a fully-built orchestra
with zero tracks and zero opened ports (and even prints the allocation
message).  So the claim that allocation fails with NoOutputPortsError in
exactly this situation is false — no error of any kind is raised at
startup. -/
theorem no_ports_error_missing :
    orchestraInit 5 [("p", [])] [] =
      .ok { patterns := [[]], outports := [], tracks := [], curPatterns := [],
            shortfallMsg := some (0, 5, 0, 1), log := [] } := by decide

/-- C4 amended.  With an empty port list and requested count at least 1
(and a loadable library), construction succeeds with zero tracks, zero
opened ports and an empty current-index table; no ports error exists in
the code.  The failure only surfaces after start-up, when the initial
seeding (beforeStart) assigns track 0's index into the empty table and
raises IndexError. -/
theorem no_ports_init_succeeds_then_seeding_fails (n : ℤ)
    (files : List (String × List Msg)) (h1 : 1 ≤ n) (hf : files ≠ []) :
    ∃ o, orchestraInit n files [] = .ok o ∧ o.tracks = [] ∧ o.outports = [] ∧
      o.curPatterns = [] ∧
      o.beforeStart = .error "IndexError: list assignment index out of range" := by
  have h0 : (min n ((((List.nil : List String)).length : ℤ) * 16)).toNat = 0 := by
    simp only [List.length_nil, Nat.cast_zero, zero_mul]
    omega
  refine ⟨_, orchestraInit_ok n files [] h1 hf, ?_, ?_, ?_, ?_⟩
  · simp [h0]
  · simp [h0]
  · simp [h0]
  · simp only [h0]
    rw [Orchestra.beforeStart]
    simp [Orchestra.queuePatternOnTrack, pySetNat, except_bind_err]

/-- Witness for C4 (amended) at requested = 5 with a one-file library. -/
theorem no_ports_init_succeeds_then_seeding_fails_witness :
    ∃ o, orchestraInit 5 [("p", [])] [] = .ok o ∧ o.tracks = [] ∧ o.outports = [] ∧
      o.curPatterns = [] ∧
      o.beforeStart = .error "IndexError: list assignment index out of range" :=
  no_ports_init_succeeds_then_seeding_fails 5 [("p", [])] (by decide) (by decide)

/-! ## C9: the allocation-shortfall diagnostic -/

/-- C9: the code prints the shortfall diagnostic even when every
requested track is granted.  Requesting 10 tracks with 2 ports grants
all 10, yet the message data (actual 10, requested 10, 2 ports
available, 1 port needed) is produced, because main.py:89 tests
`nbOfTracks >= maxNbOfTracks` — which always holds, as maxNbOfTracks =
min(nbOfTracks, 16 * ports) — where the printed text ("starting only 10
of the 10 requested tracks because only 2 output midi port(s) ...") and
the spec intend a strict comparison. -/
theorem shortfall_reported_when_all_granted :
    (orchestraInit 10 [("p", [])] ["P0", "P1"]).map
      (fun o => (o.tracks.length, o.shortfallMsg)) = .ok (10, some (10, 10, 2, 1)) := by
  decide

/-! ## The seeding loop of beforeStart -/

theorem seed_loop : ∀ (m s : ℕ) (o : Orchestra),
    1 ≤ s → s + m ≤ o.curPatterns.length → o.tracks.length = o.curPatterns.length →
    ∃ o1, (List.range' s m).foldlM (fun acc i => acc.queuePatternOnTrack 1 i) o = .ok o1 ∧
      o1.patterns = o.patterns ∧
      o1.curPatterns.length = o.curPatterns.length ∧
      o1.tracks.length = o.tracks.length ∧
      (∀ j, j < s ∨ s + m ≤ j →
        o1.curPatterns[j]? = o.curPatterns[j]? ∧ o1.tracks[j]? = o.tracks[j]?) ∧
      (∀ j, s ≤ j → j < s + m →
        o1.curPatterns[j]? = some (some 1) ∧
        (2 ≤ o.patterns.length →
          ∀ tr, o.tracks[j]? = some tr →
            ∃ p1, o.patterns[1]? = some p1 ∧ o1.tracks[j]? = some (tr.queueMidi p1)) ∧
        (o.patterns.length < 2 → o1.tracks[j]? = o.tracks[j]?)) := by
  intro m
  induction m with
  | zero =>
    intro s o hs hsm hlen
    exact ⟨o, rfl, rfl, rfl, rfl, fun j hj => ⟨rfl, rfl⟩, fun j hj1 hj2 => by omega⟩
  | succ m ih =>
    intro s o hs hsm hlen
    have hsc : s < o.curPatterns.length := by omega
    have hst : s < o.tracks.length := by omega
    obtain ⟨tr, htr⟩ : ∃ tr, o.tracks[s]? = some tr :=
      ⟨o.tracks[s], List.getElem?_eq_getElem hst⟩
    rw [List.range'_succ, List.foldlM_cons]
    by_cases h2 : 2 ≤ o.patterns.length
    · have hpat : o.patterns[(1 : ℤ).toNat]? = some (o.patterns[1]) :=
        List.getElem?_eq_getElem (by omega)
      rw [queuePattern_inrange_eq o 1 s tr (o.patterns[1]) hsc (by omega)
        (by exact_mod_cast h2) htr hpat]
      simp only [except_bind_ok]
      obtain ⟨o1, hfold, hpats, hlenc, hlent, hout, hin⟩ :=
        ih (s + 1)
          { o with curPatterns := o.curPatterns.set s (some 1),
                   tracks := o.tracks.set s (tr.queueMidi (o.patterns[1])) }
          (by omega) (by simp only [List.length_set]; omega) (by simp [hlen])
      refine ⟨o1, hfold, by simpa using hpats, by simpa using hlenc, by simpa using hlent,
        ?_, ?_⟩
      · intro j hj
        have hne : s ≠ j := by omega
        have h5 := hout j (by omega)
        refine ⟨h5.1.trans ?_, h5.2.trans ?_⟩
        · exact List.getElem?_set_ne hne
        · exact List.getElem?_set_ne hne
      · intro j hj1 hj2
        by_cases hjs : j = s
        · subst hjs
          have h5 := hout j (by omega)
          refine ⟨h5.1.trans (List.getElem?_set_self hsc), ?_, ?_⟩
          · intro h2b tr2 htr2
            have : tr2 = tr := by
              rw [htr] at htr2
              cases htr2
              rfl
            subst this
            exact ⟨o.patterns[1], List.getElem?_eq_getElem (by omega),
              h5.2.trans (List.getElem?_set_self hst)⟩
          · intro hlt
            omega
        · have hj1b : s + 1 ≤ j := by omega
          have h6 := hin j hj1b (by omega)
          refine ⟨h6.1, ?_, ?_⟩
          · intro h2b tr2 htr2
            have htr2b : ({ o with
                curPatterns := o.curPatterns.set s (some 1)
                tracks := o.tracks.set s (tr.queueMidi (o.patterns[1])) } :
                Orchestra).tracks[j]? = some tr2 := by
              simpa [List.getElem?_set_ne (show s ≠ j from fun h => hjs h.symm)] using htr2
            obtain ⟨p1, hp1, ho1⟩ := h6.2.1 (by simpa using h2b) tr2 htr2b
            exact ⟨p1, by simpa using hp1, ho1⟩
          · intro hlt
            omega
    · have hple : (o.patterns.length : ℤ) ≤ 1 := by
        push_neg at h2
        omega
      rw [queuePattern_overflow_eq o 1 s hsc hple]
      simp only [except_bind_ok]
      obtain ⟨o1, hfold, hpats, hlenc, hlent, hout, hin⟩ :=
        ih (s + 1) { o with curPatterns := o.curPatterns.set s (some 1) }
          (by omega) (by simp only [List.length_set]; omega) (by simpa using hlen)
      refine ⟨o1, hfold, by simpa using hpats, by simpa using hlenc, by simpa using hlent,
        ?_, ?_⟩
      · intro j hj
        have hne : s ≠ j := by omega
        have h5 := hout j (by omega)
        exact ⟨h5.1.trans (List.getElem?_set_ne hne), h5.2⟩
      · intro j hj1 hj2
        by_cases hjs : j = s
        · subst hjs
          have h5 := hout j (by omega)
          refine ⟨h5.1.trans (List.getElem?_set_self hsc), ?_, ?_⟩
          · intro h2b
            omega
          · intro hlt
            exact h5.2
        · have h6 := hin j (by omega) (by omega)
          refine ⟨h6.1, ?_, ?_⟩
          · intro h2b
            omega
          · intro hlt
            exact h6.2.2 (by simpa using hlt)


theorem beforeStart_spec (pats : List (List Msg)) (ports2 : List String) (K : ℕ)
    (sf : Option (ℤ × ℤ × ℤ × ℤ)) (hK : 1 ≤ K) (hpats : 1 ≤ pats.length) :
    ∃ o1, (Orchestra.mk pats ports2 ((List.range K).map initTrack)
        (List.replicate K none) sf []).beforeStart = .ok o1 ∧
      o1.curPatterns = some 0 :: List.replicate (K - 1) (some 1) ∧
      (∃ tr0 p0, o1.tracks[0]? = some tr0 ∧ pats[0]? = some p0 ∧
        tr0.msgQueue = [some ((p0.filter (fun m => !m.is_meta)).map (setChannel tr0.channel))]) ∧
      (∀ j, 1 ≤ j → j < o1.tracks.length →
        ∃ trj, o1.tracks[j]? = some trj ∧
          (2 ≤ pats.length →
            ∃ p1, pats[1]? = some p1 ∧
              trj.msgQueue =
                [some ((p1.filter (fun m => !m.is_meta)).map (setChannel trj.channel))]) ∧
          (pats.length < 2 → trj.msgQueue = [])) := by
  have htr0 : ((List.range K).map initTrack)[0]? = some (initTrack 0) := by
    rw [List.getElem?_map, List.getElem?_range (by omega)]
    rfl
  have hq := queuePattern_inrange_eq
    (Orchestra.mk pats ports2 ((List.range K).map initTrack) (List.replicate K none) sf [])
    0 0 (initTrack 0) pats[0] (by simpa using hK) (le_refl 0)
    (show (0 : ℤ) < (pats.length : ℤ) by exact_mod_cast hpats) htr0
    (List.getElem?_eq_getElem (show (0 : ℤ).toNat < pats.length by omega))
  obtain ⟨o1, hfold, hpats1, hlenc, hlent, hout, hin⟩ := seed_loop (K - 1) 1
    (Orchestra.mk pats ports2
      (((List.range K).map initTrack).set 0 ((initTrack 0).queueMidi pats[0]))
      ((List.replicate K none).set 0 (some 0)) sf [])
    (le_refl 1) (by simp; omega) (by simp)
  have hbs : (Orchestra.mk pats ports2 ((List.range K).map initTrack)
      (List.replicate K none) sf []).beforeStart = .ok o1 := by
    rw [Orchestra.beforeStart, hq]
    simp only [except_bind_ok]
    rw [show (Orchestra.mk pats ports2
        (((List.range K).map initTrack).set 0 ((initTrack 0).queueMidi pats[0]))
        ((List.replicate K none).set 0 (some 0)) sf []).tracks.length - 1 = K - 1 from by simp]
    exact hfold
  refine ⟨o1, hbs, ?_, ?_, ?_⟩
  · have hlenc2 : o1.curPatterns.length = K := by simpa using hlenc
    apply List.ext_getElem?
    intro j
    by_cases hj0 : j = 0
    · subst hj0
      have h01 : o1.curPatterns[0]? =
          ((List.replicate K (none : Option ℤ)).set 0 (some 0))[0]? := (hout 0 (by omega)).1
      rw [h01, List.getElem?_set_self (by simpa using hK)]
      simp
    · by_cases hjK : j < K
      · have h6 := (hin j (by omega) (by omega)).1
        rw [h6]
        cases j with
        | zero => omega
        | succ jj =>
          rw [List.getElem?_cons_succ, List.getElem?_replicate]
          rw [if_pos (by omega)]
      · have h7 : o1.curPatterns[j]? = none := List.getElem?_eq_none (by omega)
        rw [h7]
        symm
        apply List.getElem?_eq_none
        simp only [List.length_cons, List.length_replicate]
        omega
  · refine ⟨(initTrack 0).queueMidi pats[0], pats[0], ?_,
      List.getElem?_eq_getElem (by omega), ?_⟩
    · have h02 : o1.tracks[0]? =
          ((((List.range K).map initTrack).set 0
            ((initTrack 0).queueMidi pats[0])))[0]? := (hout 0 (by omega)).2
      rw [h02]
      exact List.getElem?_set_self (by simpa using hK)
    · rfl
  · intro j hj1 hjlen
    have hjK : j < K := by
      have hl : o1.tracks.length = K := by simpa using hlent
      omega
    have hTj : ((List.range K).map initTrack)[j]? = some (initTrack j) := by
      rw [List.getElem?_map, List.getElem?_range hjK]
      rfl
    have hO1j : (((List.range K).map initTrack).set 0
        ((initTrack 0).queueMidi pats[0]))[j]? = some (initTrack j) := by
      rw [List.getElem?_set_ne (by omega)]
      exact hTj
    by_cases h2 : 2 ≤ pats.length
    · obtain ⟨p1, hp1, htrj⟩ := (hin j (by omega) (by omega)).2.1 h2 (initTrack j) hO1j
      refine ⟨_, htrj, ?_, ?_⟩
      · intro h2c
        exact ⟨p1, hp1, rfl⟩
      · intro hlt
        omega
    · have h9 := (hin j (by omega) (by omega)).2.2 (show pats.length < 2 by omega)
      refine ⟨_, h9.trans hO1j, ?_, ?_⟩
      · intro h2c
        omega
      · intro hlt
        rfl

/-! ## C6: initial seeding -/

/-- C6 counterexample.  With a ONE-pattern library and two tracks, after
seeding, track 0 holds index 0 and track 1 holds index 1 — but nothing
is enqueued on track 1 (its queue is empty), because index 1 is already
at the library size.  So the claim that after seeding "the corresponding
pattern is enqueued on each track" is false as stated. -/
theorem seeding_skips_enqueue_with_one_pattern :
    ((orchestraInit 2 [("p", [msgA])] ["P0"]).bind Orchestra.beforeStart).map
      (fun o => (o.curPatterns, o.tracks.map Track.msgQueue)) =
    .ok ([some 0, some 1],
      [[some [{ time := 0, is_meta := false, channel := 0, kind := 37 }]], []]) := by
  decide

/-- C6 amended.  After seeding completes, track 0's current index is 0
and every other active track's index is 1; the corresponding pattern is
enqueued on a track only when that index is inside the library: always
for track 0 (pattern 0, stamped on its channel), and for the other
tracks exactly when the library holds at least 2 patterns — with a
single-pattern library those tracks' queues stay empty. -/
theorem initial_seeding (n : ℤ) (files : List (String × List Msg)) (ports : List String)
    (h1 : 1 ≤ n) (hp : ports ≠ []) (hf : files ≠ []) :
    ∃ o o1, orchestraInit n files ports = .ok o ∧ o.beforeStart = .ok o1 ∧
      o1.curPatterns = some 0 :: List.replicate (o.tracks.length - 1) (some 1) ∧
      (∃ tr0 p0, o1.tracks[0]? = some tr0 ∧ o.patterns[0]? = some p0 ∧
        tr0.msgQueue = [some ((p0.filter (fun m => !m.is_meta)).map (setChannel tr0.channel))]) ∧
      (∀ j, 1 ≤ j → j < o1.tracks.length →
        ∃ trj, o1.tracks[j]? = some trj ∧
          (2 ≤ o.patterns.length →
            ∃ p1, o.patterns[1]? = some p1 ∧
              trj.msgQueue =
                [some ((p1.filter (fun m => !m.is_meta)).map (setChannel trj.channel))]) ∧
          (o.patterns.length < 2 → trj.msgQueue = [])) := by
  have hK1 : 1 ≤ (min n ((ports.length : ℤ) * 16)).toNat := by
    have hpl := List.length_pos.mpr hp
    omega
  have hpl1 : 1 ≤ (loadPatterns files).length := by
    have hlen : (loadPatterns files).length = files.length := by
      simp [loadPatterns, List.length_insertionSort]
    rw [hlen]
    exact List.length_pos.mpr hf
  obtain ⟨o1, hbs, hcur, hb, hc⟩ := beforeStart_spec (loadPatterns files)
    (ports.take (((min n ((ports.length : ℤ) * 16)).toNat + 15) / 16))
    ((min n ((ports.length : ℤ) * 16)).toNat)
    (some (min n ((ports.length : ℤ) * 16), n, (ports.length : ℤ), (n - 1).fdiv 16 + 1))
    hK1 hpl1
  refine ⟨_, o1, orchestraInit_ok n files ports h1 hf, hbs, ?_, hb, hc⟩
  simpa using hcur

/-- Witness for C6 (amended): two tracks on one port with a two-pattern
library. -/
theorem initial_seeding_witness :
    ∃ o o1, orchestraInit 2 [("p1", [msgA]), ("p2", [msgB])] ["P0"] = .ok o ∧
      o.beforeStart = .ok o1 ∧
      o1.curPatterns = some 0 :: List.replicate (o.tracks.length - 1) (some 1) ∧
      (∃ tr0 p0, o1.tracks[0]? = some tr0 ∧ o.patterns[0]? = some p0 ∧
        tr0.msgQueue = [some ((p0.filter (fun m => !m.is_meta)).map (setChannel tr0.channel))]) ∧
      (∀ j, 1 ≤ j → j < o1.tracks.length →
        ∃ trj, o1.tracks[j]? = some trj ∧
          (2 ≤ o.patterns.length →
            ∃ p1, o.patterns[1]? = some p1 ∧
              trj.msgQueue =
                [some ((p1.filter (fun m => !m.is_meta)).map (setChannel trj.channel))]) ∧
          (o.patterns.length < 2 → trj.msgQueue = [])) :=
  initial_seeding 2 [("p1", [msgA]), ("p2", [msgB])] ["P0"] (by decide) (by decide) (by decide)

/-- Witness for C3 at requested = 1 with one port and a one-file library. -/
theorem allocation_spec_witness :
    (∃ o, orchestraInit 1 [("p", [])] ["P0"] = .ok o ∧
      (o.tracks.length : ℤ) = min 1 (((["P0"] : List String).length : ℤ) * 16) ∧
      (∀ (i : ℕ) (tr : Track), o.tracks[i]? = some tr →
        tr.outport = i / 16 ∧ tr.channel = ((i % 16 : ℕ) : ℤ)) ∧
      o.outports = (["P0"] : List String).take ((o.tracks.length + 15) / 16) ∧
      o.outports.length = (o.tracks.length + 15) / 16 ∧
      (∀ tr ∈ o.tracks, tr.outport < o.outports.length)) ∧
    (orchestraInit 20 [("p", [])] ["P0"]).map (fun o => o.tracks.length) = .ok 16 ∧
    (orchestraInit 10 [("p", [])] ["P0", "P1"]).map
      (fun o => (o.tracks.length, o.tracks.map Track.outport)) =
      .ok (10, List.replicate 10 0) :=
  allocation_spec 1 [("p", [])] ["P0"] (by decide) (by decide) (by decide)
